import Mathlib

/-!
Verification development for the personal-budget-app backend.

Shallow embedding of:
* `src/lib/security.ts` — `sanitizeString`, `sanitizeObject`
* `src/lib/error-handler.ts` — `ErrorType`, `AppError`, `createError`,
  `handleApiError`, `withErrorHandling`
* `src/middleware.ts` (unnamed part_000) — security headers / rate limiter
* `src/app/api/profiles/route.ts` — `GET`, `POST`
* `src/app/api/profiles/[id]/route.ts` — `PUT`, `DELETE`

Strings are modelled as `List Char`; the JavaScript dynamic values that flow
through request bodies and `sanitizeObject` are modelled by the inductive
type `Js` below.
-/

namespace Budget

/-! ## String sanitization (`src/lib/security.ts`) -/

/-- Model of the whitespace class removed by JavaScript `String.prototype.trim`
(restricted to the ASCII whitespace characters; the claims only involve
these). -/
def isJsWs (c : Char) : Bool :=
  c == ' ' || c == '\t' || c == '\n' || c == '\r' ||
  c == Char.ofNat 11 || c == Char.ofNat 12

/-- Left trim: drop leading whitespace. -/
def trimL (s : List Char) : List Char := s.dropWhile isJsWs

/-- Right trim: drop trailing whitespace. -/
def trimR (s : List Char) : List Char := (s.reverse.dropWhile isJsWs).reverse

/-- Model of JavaScript `String.prototype.trim`. -/
def jsTrim (s : List Char) : List Char := trimR (trimL s)

/-- Model of JavaScript `String.prototype.replace(/c/g, r)` for a
single-character pattern `c`: every occurrence of `c` is replaced by `r`. -/
def repl (c : Char) (r : List Char) : List Char → List Char
  | [] => []
  | d :: t => (if d = c then r else [d]) ++ repl c r t

/-- `sanitizeString` from `src/lib/security.ts`, on `List Char`:
`if (!input) return ''` (the only falsy string is the empty one), then the
six global replacements `< > & " ' /` in source order, then `.trim()`. -/
def sanitizeString (s : List Char) : List Char :=
  if s = [] then []
  else
    jsTrim
      (repl '/' "&#x2F;".toList
        (repl '\'' "&#x27;".toList
          (repl '"' "&quot;".toList
            (repl '&' "&amp;".toList
              (repl '>' "&gt;".toList
                (repl '<' "&lt;".toList s))))))

/-- Per-character effect of the whole replacement chain: because the `&`
replacement runs after the `<`/`>` ones, their output is escaped a second
time. -/
def escChar (c : Char) : List Char :=
  if c = '<' then "&amp;lt;".toList
  else if c = '>' then "&amp;gt;".toList
  else if c = '&' then "&amp;".toList
  else if c = '"' then "&quot;".toList
  else if c = '\'' then "&#x27;".toList
  else if c = '/' then "&#x2F;".toList
  else [c]

/-- Concat-map over characters. -/
def cmap (f : Char → List Char) : List Char → List Char
  | [] => []
  | c :: t => f c ++ cmap f t

theorem cmap_append (f : Char → List Char) (xs ys : List Char) :
    cmap f (xs ++ ys) = cmap f xs ++ cmap f ys := by
  induction xs with
  | nil => simp [cmap]
  | cons c t ih => simp [cmap, ih]

theorem repl_eq_cmap (c : Char) (r : List Char) (s : List Char) :
    repl c r s = cmap (fun d => if d = c then r else [d]) s := by
  induction s with
  | nil => simp [repl, cmap]
  | cons d t ih => simp [repl, cmap, ih]

theorem cmap_cmap (f g : Char → List Char) (s : List Char) :
    cmap f (cmap g s) = cmap (fun c => cmap f (g c)) s := by
  induction s with
  | nil => simp [cmap]
  | cons c t ih => simp [cmap, cmap_append, ih]

theorem cmap_congr {f g : Char → List Char} (h : ∀ c, f c = g c)
    (s : List Char) : cmap f s = cmap g s := by
  induction s with
  | nil => simp [cmap]
  | cons c t ih => simp [cmap, ih, h c]

/-- The six sequential global replacements of `sanitizeString` act
characterwise as `escChar`. -/
theorem replChain_eq_cmap_escChar (s : List Char) :
    repl '/' "&#x2F;".toList
      (repl '\'' "&#x27;".toList
        (repl '"' "&quot;".toList
          (repl '&' "&amp;".toList
            (repl '>' "&gt;".toList
              (repl '<' "&lt;".toList s))))) = cmap escChar s := by
  simp only [repl_eq_cmap, cmap_cmap]
  refine cmap_congr (fun c => ?_) s
  by_cases h1 : c = '<'
  · subst h1; decide
  by_cases h2 : c = '>'
  · subst h2; decide
  by_cases h3 : c = '&'
  · subst h3; decide
  by_cases h4 : c = '"'
  · subst h4; decide
  by_cases h5 : c = '\''
  · subst h5; decide
  by_cases h6 : c = '/'
  · subst h6; decide
  simp [cmap, escChar, h1, h2, h3, h4, h5, h6]

theorem sanitizeString_eq (s : List Char) :
    sanitizeString s = jsTrim (cmap escChar s) := by
  by_cases h : s = []
  · subst h; simp [sanitizeString, cmap, jsTrim, trimL, trimR]
  · unfold sanitizeString
    rw [if_neg h, replChain_eq_cmap_escChar]

theorem dropWhile_cmap (f : Char → List Char)
    (hw : ∀ c, isJsWs c = true → f c = [c])
    (hh : ∀ c, isJsWs c = false → ∃ d ds, f c = d :: ds ∧ isJsWs d = false)
    (s : List Char) :
    (cmap f s).dropWhile isJsWs = cmap f (s.dropWhile isJsWs) := by
  induction s with
  | nil => simp [cmap]
  | cons c t ih =>
    cases hws : isJsWs c with
    | true =>
      have hc := hw c hws
      simp [cmap, hc, List.dropWhile_cons, hws, ih]
    | false =>
      obtain ⟨d, ds, hfc, hd⟩ := hh c hws
      simp [cmap, hfc, List.dropWhile_cons, hws, hd]

theorem cmap_reverse (f : Char → List Char) (s : List Char) :
    (cmap f s).reverse = cmap (fun c => (f c).reverse) s.reverse := by
  induction s with
  | nil => simp [cmap]
  | cons c t ih => simp [cmap, cmap_append, ih]

theorem escChar_ws {c : Char} (h : isJsWs c = true) : escChar c = [c] := by
  have h1 : ¬c = '<' := by rintro rfl; simp [isJsWs] at h
  have h2 : ¬c = '>' := by rintro rfl; simp [isJsWs] at h
  have h3 : ¬c = '&' := by rintro rfl; simp [isJsWs] at h
  have h4 : ¬c = '"' := by rintro rfl; simp [isJsWs] at h
  have h5 : ¬c = '\'' := by rintro rfl; simp [isJsWs] at h
  have h6 : ¬c = '/' := by rintro rfl; simp [isJsWs] at h
  simp [escChar, h1, h2, h3, h4, h5, h6]

theorem escChar_head {c : Char} (h : isJsWs c = false) :
    ∃ d ds, escChar c = d :: ds ∧ isJsWs d = false := by
  by_cases h1 : c = '<'
  · exact ⟨'&', _, by subst h1; rfl, by decide⟩
  by_cases h2 : c = '>'
  · exact ⟨'&', _, by subst h2; rfl, by decide⟩
  by_cases h3 : c = '&'
  · exact ⟨'&', _, by subst h3; rfl, by decide⟩
  by_cases h4 : c = '"'
  · exact ⟨'&', _, by subst h4; rfl, by decide⟩
  by_cases h5 : c = '\''
  · exact ⟨'&', _, by subst h5; rfl, by decide⟩
  by_cases h6 : c = '/'
  · exact ⟨'&', _, by subst h6; rfl, by decide⟩
  exact ⟨c, [], by simp [escChar, h1, h2, h3, h4, h5, h6], h⟩

theorem escChar_last {c : Char} (h : isJsWs c = false) :
    ∃ d ds, (escChar c).reverse = d :: ds ∧ isJsWs d = false := by
  by_cases h1 : c = '<'
  · exact ⟨';', _, by subst h1; rfl, by decide⟩
  by_cases h2 : c = '>'
  · exact ⟨';', _, by subst h2; rfl, by decide⟩
  by_cases h3 : c = '&'
  · exact ⟨';', _, by subst h3; rfl, by decide⟩
  by_cases h4 : c = '"'
  · exact ⟨';', _, by subst h4; rfl, by decide⟩
  by_cases h5 : c = '\''
  · exact ⟨';', _, by subst h5; rfl, by decide⟩
  by_cases h6 : c = '/'
  · exact ⟨';', _, by subst h6; rfl, by decide⟩
  exact ⟨c, [], by simp [escChar, h1, h2, h3, h4, h5, h6], h⟩

theorem jsTrim_cmap_escChar (s : List Char) :
    jsTrim (cmap escChar s) = cmap escChar (jsTrim s) := by
  have hwR : ∀ c, isJsWs c = true → (escChar c).reverse = [c] := by
    intro c hc; rw [escChar_ws hc]; rfl
  have step1 : (cmap escChar s).dropWhile isJsWs
      = cmap escChar (s.dropWhile isJsWs) :=
    dropWhile_cmap escChar (fun c hc => escChar_ws hc)
      (fun c hc => escChar_head hc) s
  unfold jsTrim trimR trimL
  rw [step1, cmap_reverse,
    dropWhile_cmap (fun c => (escChar c).reverse) hwR
      (fun c hc => escChar_last hc), cmap_reverse]
  exact cmap_congr (fun c => by simp) _

/-- After an `&`, recognize one of the entity tails that `sanitizeString`
emits (`amp;`, `quot;`, `#x27;`, `#x2F;`) and return the remaining input. -/
def entStep : List Char → Option (List Char)
  | 'a' :: 'm' :: 'p' :: ';' :: r => some r
  | 'q' :: 'u' :: 'o' :: 't' :: ';' :: r => some r
  | '#' :: 'x' :: '2' :: '7' :: ';' :: r => some r
  | '#' :: 'x' :: '2' :: 'F' :: ';' :: r => some r
  | _ => none

theorem entStep_len {rest r : List Char} (h : entStep rest = some r) :
    r.length < rest.length := by
  unfold entStep at h
  split at h <;> simp_all <;> omega

/-- Decides that a string is fully escaped: it contains none of
`< > " ' /`, and every `&` begins one of the entity sequences
`&amp;`, `&quot;`, `&#x27;`, `&#x2F;` that `sanitizeString` emits. -/
def wellEscaped : List Char → Bool
  | [] => true
  | c :: rest =>
    if c = '<' ∨ c = '>' ∨ c = '"' ∨ c = '\'' ∨ c = '/' then false
    else if c = '&' then
      match h : entStep rest with
      | some r => wellEscaped r
      | none => false
    else wellEscaped rest
termination_by s => s.length
decreasing_by
  · simp only [List.length_cons]
    have := entStep_len h
    omega
  · simp

theorem wellEscaped_amp (r : List Char) :
    wellEscaped ('&' :: 'a' :: 'm' :: 'p' :: ';' :: r) = wellEscaped r := by
  rw [wellEscaped]; simp [entStep]

theorem wellEscaped_quot (r : List Char) :
    wellEscaped ('&' :: 'q' :: 'u' :: 'o' :: 't' :: ';' :: r)
      = wellEscaped r := by
  rw [wellEscaped]; simp [entStep]

theorem wellEscaped_x27 (r : List Char) :
    wellEscaped ('&' :: '#' :: 'x' :: '2' :: '7' :: ';' :: r)
      = wellEscaped r := by
  rw [wellEscaped]; simp [entStep]

theorem wellEscaped_x2F (r : List Char) :
    wellEscaped ('&' :: '#' :: 'x' :: '2' :: 'F' :: ';' :: r)
      = wellEscaped r := by
  rw [wellEscaped]; simp [entStep]

theorem wellEscaped_other {c : Char}
    (h : ¬(c = '<' ∨ c = '>' ∨ c = '"' ∨ c = '\'' ∨ c = '/'))
    (h7 : ¬c = '&') (r : List Char) :
    wellEscaped (c :: r) = wellEscaped r := by
  rw [wellEscaped]
  rw [if_neg h, if_neg h7]

theorem wellEscaped_escChar_append (c : Char) (r : List Char) :
    wellEscaped (escChar c ++ r) = wellEscaped r := by
  by_cases h1 : c = '<'
  · subst h1
    show wellEscaped ('&' :: 'a' :: 'm' :: 'p' :: ';'
      :: 'l' :: 't' :: ';' :: r) = wellEscaped r
    rw [wellEscaped_amp, wellEscaped_other (by decide) (by decide),
      wellEscaped_other (by decide) (by decide),
      wellEscaped_other (by decide) (by decide)]
  by_cases h2 : c = '>'
  · subst h2
    show wellEscaped ('&' :: 'a' :: 'm' :: 'p' :: ';'
      :: 'g' :: 't' :: ';' :: r) = wellEscaped r
    rw [wellEscaped_amp, wellEscaped_other (by decide) (by decide),
      wellEscaped_other (by decide) (by decide),
      wellEscaped_other (by decide) (by decide)]
  by_cases h3 : c = '&'
  · subst h3
    show wellEscaped ('&' :: 'a' :: 'm' :: 'p' :: ';' :: r) = wellEscaped r
    rw [wellEscaped_amp]
  by_cases h4 : c = '"'
  · subst h4
    show wellEscaped ('&' :: 'q' :: 'u' :: 'o' :: 't' :: ';' :: r)
      = wellEscaped r
    rw [wellEscaped_quot]
  by_cases h5 : c = '\''
  · subst h5
    show wellEscaped ('&' :: '#' :: 'x' :: '2' :: '7' :: ';' :: r)
      = wellEscaped r
    rw [wellEscaped_x27]
  by_cases h6 : c = '/'
  · subst h6
    show wellEscaped ('&' :: '#' :: 'x' :: '2' :: 'F' :: ';' :: r)
      = wellEscaped r
    rw [wellEscaped_x2F]
  have hx : ¬(c = '<' ∨ c = '>' ∨ c = '"' ∨ c = '\'' ∨ c = '/') := by
    simp [h1, h2, h4, h5, h6]
  have he : escChar c = [c] := by simp [escChar, h1, h2, h3, h4, h5, h6]
  rw [he]
  exact wellEscaped_other hx h3 r

theorem wellEscaped_cmap_escChar (s : List Char) :
    wellEscaped (cmap escChar s) = true := by
  induction s with
  | nil => rw [cmap, wellEscaped]
  | cons c t ih => rw [cmap, wellEscaped_escChar_append, ih]

theorem dropWhile_dropWhile (p : Char → Bool) (l : List Char) :
    (l.dropWhile p).dropWhile p = l.dropWhile p := by
  induction l with
  | nil => rfl
  | cons c t ih =>
    cases hp : p c with
    | true => simp [List.dropWhile_cons, hp, ih]
    | false => simp [List.dropWhile_cons, hp]

theorem head?_dropWhile {p : Char → Bool} {l : List Char} {c : Char}
    (h : (l.dropWhile p).head? = some c) : p c = false := by
  induction l with
  | nil => simp at h
  | cons d t ih =>
    cases hp : p d with
    | true => rw [List.dropWhile_cons, if_pos (by simp [hp])] at h; exact ih h
    | false =>
      rw [List.dropWhile_cons, if_neg (by simp [hp])] at h
      simp at h
      subst h
      exact hp

theorem mem_dropWhile_sub {p : Char → Bool} {l : List Char} {a : Char}
    (h : a ∈ l.dropWhile p) : a ∈ l :=
  (List.dropWhile_suffix p).subset h

theorem trimR_head? {l : List Char} {c : Char}
    (h : (trimR l).head? = some c) : l.head? = some c := by
  obtain ⟨u, hu⟩ := List.dropWhile_suffix (l := l.reverse) (p := isJsWs)
  have hl : l = trimR l ++ u.reverse := by
    have h2 := congrArg List.reverse hu
    simp only [List.reverse_append, List.reverse_reverse] at h2
    rw [trimR]
    exact h2.symm
  cases hr : trimR l with
  | nil => rw [hr] at h; simp at h
  | cons d t =>
    rw [hr] at h
    simp at h
    rw [hl, hr]
    simp [h]

theorem trimL_eq_self {l : List Char}
    (h : ∀ c, l.head? = some c → isJsWs c = false) : trimL l = l := by
  cases l with
  | nil => rfl
  | cons c t =>
    unfold trimL
    rw [List.dropWhile_cons, if_neg (by simp [h c rfl])]

theorem trimL_head? {l : List Char} {c : Char}
    (h : (trimL l).head? = some c) : isJsWs c = false := head?_dropWhile h

theorem trimL_trimR_trimL (s : List Char) :
    trimL (trimR (trimL s)) = trimR (trimL s) := by
  refine trimL_eq_self (fun c hc => ?_)
  exact trimL_head? (trimR_head? hc)

theorem trimR_trimR (s : List Char) : trimR (trimR s) = trimR s := by
  unfold trimR
  rw [List.reverse_reverse, dropWhile_dropWhile]

theorem jsTrim_idem (s : List Char) : jsTrim (jsTrim s) = jsTrim s := by
  show trimR (trimL (trimR (trimL s))) = trimR (trimL s)
  rw [trimL_trimR_trimL, trimR_trimR]

/-- The six characters escaped by `sanitizeString`. -/
def isSpecial (c : Char) : Bool :=
  c == '<' || c == '>' || c == '&' || c == '"' || c == '\'' || c == '/'

theorem escChar_not_special {c : Char} (h : isSpecial c = false) :
    escChar c = [c] := by
  have h1 : ¬c = '<' := by rintro rfl; simp [isSpecial] at h
  have h2 : ¬c = '>' := by rintro rfl; simp [isSpecial] at h
  have h3 : ¬c = '&' := by rintro rfl; simp [isSpecial] at h
  have h4 : ¬c = '"' := by rintro rfl; simp [isSpecial] at h
  have h5 : ¬c = '\'' := by rintro rfl; simp [isSpecial] at h
  have h6 : ¬c = '/' := by rintro rfl; simp [isSpecial] at h
  simp [escChar, h1, h2, h3, h4, h5, h6]

theorem cmap_escChar_id {s : List Char}
    (h : ∀ c ∈ s, isSpecial c = false) : cmap escChar s = s := by
  induction s with
  | nil => rfl
  | cons c t ih =>
    rw [cmap, escChar_not_special (h c (by simp)),
      ih (fun d hd => h d (by simp [hd]))]
    rfl

theorem mem_jsTrim_sub {s : List Char} {a : Char} (h : a ∈ jsTrim s) :
    a ∈ s := by
  unfold jsTrim trimR trimL at h
  have h1 := mem_dropWhile_sub (List.mem_reverse.mp h)
  exact mem_dropWhile_sub (List.mem_reverse.mp h1)

theorem sanitizeString_noSpecials {s : List Char}
    (h : ∀ c ∈ s, isSpecial c = false) : sanitizeString s = jsTrim s := by
  rw [sanitizeString_eq, cmap_escChar_id h]

theorem sanitizeString_idem_noSpecials {s : List Char}
    (h : ∀ c ∈ s, isSpecial c = false) :
    sanitizeString (sanitizeString s) = sanitizeString s := by
  rw [sanitizeString_noSpecials h,
    sanitizeString_noSpecials (fun c hc => h c (mem_jsTrim_sub hc)),
    jsTrim_idem]

theorem sanitizeString_wellEscaped (s : List Char) :
    wellEscaped (sanitizeString s) = true := by
  rw [sanitizeString_eq, jsTrim_cmap_escChar, wellEscaped_cmap_escChar]

theorem sanitizeString_allWs {s : List Char}
    (h : ∀ c ∈ s, isJsWs c = true) : sanitizeString s = [] := by
  have htl : trimL s = [] := by
    unfold trimL
    exact List.dropWhile_eq_nil_iff.mpr h
  rw [sanitizeString_eq, jsTrim_cmap_escChar]
  unfold jsTrim
  rw [htl]
  rfl

theorem sanitizeString_head? {s : List Char} {c : Char}
    (h : (sanitizeString s).head? = some c) : isJsWs c = false := by
  rw [sanitizeString_eq] at h
  exact head?_dropWhile (trimR_head? h)

theorem getLast?_trimR {l : List Char} {c : Char}
    (h : (trimR l).getLast? = some c) : isJsWs c = false := by
  unfold trimR at h
  rw [← List.head?_reverse, List.reverse_reverse] at h
  exact head?_dropWhile h

theorem sanitizeString_getLast? {s : List Char} {c : Char}
    (h : (sanitizeString s).getLast? = some c) : isJsWs c = false := by
  rw [sanitizeString_eq] at h
  exact getLast?_trimR h

/-! ## Dynamic JavaScript values and `sanitizeObject` -/

/-- Model of the JavaScript values that flow through `sanitizeObject` and
request bodies: strings, numbers (the claims never depend on float
behaviour, so numbers are modelled as integers), booleans, `null`/`undefined`,
arrays and plain objects (ordered key/value lists, as `Object.entries`
presents them). -/
inductive Js where
  | str : List Char → Js
  | num : Int → Js
  | jbool : Bool → Js
  | null : Js
  | arr : List Js → Js
  | obj : List (String × Js) → Js

/-- `Object.entries` applied to a JavaScript array yields index-keyed
entries `("0", v0), ("1", v1), …`. -/
def enumKeys : Nat → List Js → List (String × Js)
  | _, [] => []
  | n, v :: t => (toString n, v) :: enumKeys (n + 1) t

mutual
/-- `sanitizeObject` from `src/lib/security.ts`. Non-objects (including
strings) are returned unchanged by the `typeof obj !== 'object'` guard and
`null` by the `!obj` guard; a plain object is rebuilt entry by entry; an
array passed to `sanitizeObject` itself (which happens for arrays nested
directly inside arrays) is run through `Object.entries`, producing an
index-keyed plain object. -/
def sanitizeObject : Js → Js
  | .obj fs => .obj (sanitizeFields fs)
  | .arr xs => .obj (enumKeys 0 (sanitizeEntries xs))
  | v => v

/-- The `for (const [key, value] of Object.entries(obj))` body, over the
fields of an object. -/
def sanitizeFields : List (String × Js) → List (String × Js)
  | [] => []
  | (k, v) :: t => (k, entryVal v) :: sanitizeFields t

/-- The same entry transformation applied to the index-keyed entries of an
array that reached `sanitizeObject`. -/
def sanitizeEntries : List Js → List Js
  | [] => []
  | v :: t => entryVal v :: sanitizeEntries t

/-- How `sanitizeObject` transforms one entry value: strings are
sanitized, arrays are mapped elementwise, non-null objects recurse, and
everything else (numbers, booleans, `null`) is kept. -/
def entryVal : Js → Js
  | .str s => .str (sanitizeString s)
  | .arr l => .arr (itemVals l)
  | .obj f => sanitizeObject (.obj f)
  | v => v

def itemVals : List Js → List Js
  | [] => []
  | v :: t => itemVal v :: itemVals t

/-- The array-item arm
`typeof item === 'string' ? sanitizeString(item) : typeof item === 'object' ? sanitizeObject(item) : item`.
Note `typeof null === 'object'` and `typeof [] === 'object'`, so `null`
and nested arrays are passed to `sanitizeObject` here. -/
def itemVal : Js → Js
  | .str s => .str (sanitizeString s)
  | .arr l => sanitizeObject (.arr l)
  | .obj f => sanitizeObject (.obj f)
  | .null => sanitizeObject .null
  | v => v
end

mutual
/-- Every string anywhere in the value consists of non-escaped characters
only (none of `< > & " ' /`). -/
def noSpecJs : Js → Bool
  | .str s => s.all (fun c => !isSpecial c)
  | .arr l => noSpecList l
  | .obj fs => noSpecFields fs
  | _ => true

def noSpecList : List Js → Bool
  | [] => true
  | v :: t => noSpecJs v && noSpecList t

def noSpecFields : List (String × Js) → Bool
  | [] => true
  | (_, v) :: t => noSpecJs v && noSpecFields t
end

theorem sanitizeFields_eq_map (fs : List (String × Js)) :
    sanitizeFields fs = fs.map (fun kv => (kv.1, entryVal kv.2)) := by
  induction fs with
  | nil => rw [sanitizeFields]; rfl
  | cons kv t ih =>
    obtain ⟨k, v⟩ := kv
    rw [sanitizeFields, ih]
    rfl

theorem sanitizeEntries_eq_map (l : List Js) :
    sanitizeEntries l = l.map entryVal := by
  induction l with
  | nil => rw [sanitizeEntries]; rfl
  | cons v t ih => rw [sanitizeEntries, ih]; rfl

theorem itemVals_eq_map (l : List Js) : itemVals l = l.map itemVal := by
  induction l with
  | nil => rw [itemVals]; rfl
  | cons v t ih => rw [itemVals, ih]; rfl

theorem sanitizeFields_enumKeys (n : Nat) (ws : List Js) :
    sanitizeFields (enumKeys n ws) = enumKeys n (ws.map entryVal) := by
  induction ws generalizing n with
  | nil => simp [enumKeys, sanitizeFields]
  | cons v t ih => rw [enumKeys, sanitizeFields, List.map_cons, enumKeys, ih]

theorem noSpecList_mem {l : List Js} (h : noSpecList l = true) :
    ∀ x ∈ l, noSpecJs x = true := by
  induction l with
  | nil => simp
  | cons v t ih =>
    rw [noSpecList, Bool.and_eq_true] at h
    intro x hx
    rcases List.mem_cons.mp hx with hx | hx
    · subst hx; exact h.1
    · exact ih h.2 x hx

theorem noSpecFields_mem {fs : List (String × Js)}
    (h : noSpecFields fs = true) : ∀ kv ∈ fs, noSpecJs kv.2 = true := by
  induction fs with
  | nil => simp
  | cons kv t ih =>
    obtain ⟨k, v⟩ := kv
    rw [noSpecFields, Bool.and_eq_true] at h
    intro x hx
    rcases List.mem_cons.mp hx with hx | hx
    · subst hx; exact h.1
    · exact ih h.2 x hx

theorem sizeOf_mem_arr {l : List Js} {x : Js} (h : x ∈ l) :
    sizeOf x < sizeOf (Js.arr l) := by
  have := List.sizeOf_lt_of_mem h
  simp only [Js.arr.sizeOf_spec]
  omega

theorem sizeOf_mem_obj {fs : List (String × Js)} {kv : String × Js}
    (h : kv ∈ fs) : sizeOf kv.2 < sizeOf (Js.obj fs) := by
  have h1 := List.sizeOf_lt_of_mem h
  obtain ⟨k, v⟩ := kv
  simp only [Js.obj.sizeOf_spec, Prod.mk.sizeOf_spec] at *
  omega

theorem sanitize_idem_aux : ∀ n (v : Js), sizeOf v ≤ n → noSpecJs v = true →
    sanitizeObject (sanitizeObject v) = sanitizeObject v
    ∧ itemVal (itemVal v) = itemVal v
    ∧ entryVal (entryVal v) = entryVal v := by
  intro n
  induction n with
  | zero =>
    intro v hsz _
    exfalso
    cases v <;> simp at hsz
  | succ n ih =>
    intro v hsz hns
    cases v with
    | str s =>
      have hs : ∀ c ∈ s, isSpecial c = false := by
        rw [noSpecJs] at hns
        simpa using hns
      exact ⟨by simp [sanitizeObject],
        by simp [itemVal, sanitizeString_idem_noSpecials hs],
        by simp [entryVal, sanitizeString_idem_noSpecials hs]⟩
    | num i => exact ⟨by simp [sanitizeObject], by simp [itemVal],
        by simp [entryVal]⟩
    | jbool b => exact ⟨by simp [sanitizeObject], by simp [itemVal],
        by simp [entryVal]⟩
    | null => exact ⟨by simp [sanitizeObject], by simp [itemVal, sanitizeObject],
        by simp [entryVal]⟩
    | arr l =>
      have hmem : ∀ x ∈ l, noSpecJs x = true := by
        rw [noSpecJs] at hns
        exact noSpecList_mem hns
      have ihx : ∀ x ∈ l,
          sanitizeObject (sanitizeObject x) = sanitizeObject x
          ∧ itemVal (itemVal x) = itemVal x
          ∧ entryVal (entryVal x) = entryVal x := by
        intro x hx
        have hlt := sizeOf_mem_arr hx
        exact ih x (by omega) (hmem x hx)
      have hobj : sanitizeObject (.arr l)
          = .obj (enumKeys 0 (l.map entryVal)) := by
        rw [sanitizeObject, sanitizeEntries_eq_map]
      have conj1 : sanitizeObject (sanitizeObject (.arr l))
          = sanitizeObject (.arr l) := by
        rw [hobj, sanitizeObject, sanitizeFields_enumKeys, List.map_map]
        have : l.map (entryVal ∘ entryVal) = l.map entryVal :=
          List.map_congr_left (fun x hx => (ihx x hx).2.2)
        rw [this]
      refine ⟨conj1, ?_, ?_⟩
      · show itemVal (itemVal (.arr l)) = itemVal (.arr l)
        rw [itemVal, hobj, itemVal, ← hobj]
        exact conj1
      · show entryVal (entryVal (.arr l)) = entryVal (.arr l)
        rw [entryVal, itemVals_eq_map, entryVal, itemVals_eq_map,
          List.map_map]
        have : l.map (itemVal ∘ itemVal) = l.map itemVal :=
          List.map_congr_left (fun x hx => (ihx x hx).2.1)
        rw [this]
    | obj fs =>
      have hmem : ∀ kv ∈ fs, noSpecJs kv.2 = true := by
        rw [noSpecJs] at hns
        exact noSpecFields_mem hns
      have ihx : ∀ kv ∈ fs, entryVal (entryVal kv.2) = entryVal kv.2 := by
        intro kv hkv
        have hlt := sizeOf_mem_obj hkv
        exact (ih kv.2 (by omega) (hmem kv hkv)).2.2
      have hobj : sanitizeObject (.obj fs)
          = .obj (fs.map (fun kv => (kv.1, entryVal kv.2))) := by
        rw [sanitizeObject, sanitizeFields_eq_map]
      have conj1 : sanitizeObject (sanitizeObject (.obj fs))
          = sanitizeObject (.obj fs) := by
        rw [hobj, sanitizeObject, sanitizeFields_eq_map, List.map_map]
        have : fs.map ((fun kv => (kv.1, entryVal kv.2))
              ∘ fun kv => (kv.1, entryVal kv.2))
            = fs.map (fun kv => (kv.1, entryVal kv.2)) :=
          List.map_congr_left (fun kv hkv => by
            simp only [Function.comp_apply]
            rw [ihx kv hkv])
        rw [this]
      refine ⟨conj1, ?_, ?_⟩
      · show itemVal (itemVal (.obj fs)) = itemVal (.obj fs)
        rw [itemVal, hobj, itemVal, ← hobj]
        exact conj1
      · show entryVal (entryVal (.obj fs)) = entryVal (.obj fs)
        rw [entryVal, hobj, entryVal, ← hobj]
        exact conj1

theorem sanitizeObject_idem_noSpecials {v : Js} (h : noSpecJs v = true) :
    sanitizeObject (sanitizeObject v) = sanitizeObject v :=
  (sanitize_idem_aux (sizeOf v) v (Nat.le_refl _) h).1

/-- Is the value an array? (`Array.isArray`). -/
def isArrB : Js → Bool
  | .arr _ => true
  | _ => false

mutual
/-- Replace every string in the value by the empty string, keeping all
other structure: two values agree after `eraseStrings` exactly when they
differ at most in their string contents. -/
def eraseStrings : Js → Js
  | .str _ => .str []
  | .arr l => .arr (eraseList l)
  | .obj fs => .obj (eraseFields fs)
  | v => v

def eraseList : List Js → List Js
  | [] => []
  | v :: t => eraseStrings v :: eraseList t

def eraseFields : List (String × Js) → List (String × Js)
  | [] => []
  | (k, v) :: t => (k, eraseStrings v) :: eraseFields t
end

mutual
/-- No array appears directly inside an array anywhere in the value. -/
def noArrArr : Js → Bool
  | .arr l => noArrItems l
  | .obj fs => noArrFields fs
  | _ => true

def noArrItems : List Js → Bool
  | [] => true
  | v :: t => !isArrB v && noArrArr v && noArrItems t

def noArrFields : List (String × Js) → Bool
  | [] => true
  | (_, v) :: t => noArrArr v && noArrFields t
end

theorem eraseList_eq_map (l : List Js) : eraseList l = l.map eraseStrings := by
  induction l with
  | nil => rw [eraseList]; rfl
  | cons v t ih => rw [eraseList, ih]; rfl

theorem eraseFields_eq_map (fs : List (String × Js)) :
    eraseFields fs = fs.map (fun kv => (kv.1, eraseStrings kv.2)) := by
  induction fs with
  | nil => rw [eraseFields]; rfl
  | cons kv t ih =>
    obtain ⟨k, v⟩ := kv
    rw [eraseFields, ih]
    rfl

theorem noArrItems_mem {l : List Js} (h : noArrItems l = true) :
    ∀ x ∈ l, isArrB x = false ∧ noArrArr x = true := by
  induction l with
  | nil => simp
  | cons v t ih =>
    rw [noArrItems] at h
    simp only [Bool.and_eq_true, Bool.not_eq_eq_eq_not, Bool.not_true] at h
    intro x hx
    rcases List.mem_cons.mp hx with hx | hx
    · subst hx; exact ⟨by simpa using h.1.1, h.1.2⟩
    · exact ih h.2 x hx

theorem noArrFields_mem {fs : List (String × Js)}
    (h : noArrFields fs = true) : ∀ kv ∈ fs, noArrArr kv.2 = true := by
  induction fs with
  | nil => simp
  | cons kv t ih =>
    obtain ⟨k, v⟩ := kv
    rw [noArrFields, Bool.and_eq_true] at h
    intro x hx
    rcases List.mem_cons.mp hx with hx | hx
    · subst hx; exact h.1
    · exact ih h.2 x hx

theorem erase_sanitize_aux : ∀ n (v : Js), sizeOf v ≤ n → noArrArr v = true →
    eraseStrings (entryVal v) = eraseStrings v
    ∧ (isArrB v = false → eraseStrings (itemVal v) = eraseStrings v)
    ∧ (isArrB v = false →
        eraseStrings (sanitizeObject v) = eraseStrings v) := by
  intro n
  induction n with
  | zero =>
    intro v hsz _
    exfalso
    cases v <;> simp at hsz
  | succ n ih =>
    intro v hsz hna
    cases v with
    | str s =>
      exact ⟨by simp [entryVal, eraseStrings],
        fun _ => by simp [itemVal, eraseStrings],
        fun _ => by simp [sanitizeObject]⟩
    | num i =>
      exact ⟨by simp [entryVal], fun _ => by simp [itemVal],
        fun _ => by simp [sanitizeObject]⟩
    | jbool b =>
      exact ⟨by simp [entryVal], fun _ => by simp [itemVal],
        fun _ => by simp [sanitizeObject]⟩
    | null =>
      exact ⟨by simp [entryVal], fun _ => by simp [itemVal, sanitizeObject],
        fun _ => by simp [sanitizeObject]⟩
    | arr l =>
      have hmem : ∀ x ∈ l, isArrB x = false ∧ noArrArr x = true := by
        rw [noArrArr] at hna
        exact noArrItems_mem hna
      refine ⟨?_, fun hc => by simp [isArrB] at hc,
        fun hc => by simp [isArrB] at hc⟩
      rw [entryVal, itemVals_eq_map, eraseStrings, eraseStrings,
        eraseList_eq_map, eraseList_eq_map, List.map_map]
      have : l.map (eraseStrings ∘ itemVal) = l.map eraseStrings :=
        List.map_congr_left (fun x hx => by
          have hlt := sizeOf_mem_arr hx
          exact (ih x (by omega) (hmem x hx).2).2.1 (hmem x hx).1)
      rw [this]
    | obj fs =>
      have hmem : ∀ kv ∈ fs, noArrArr kv.2 = true := by
        rw [noArrArr] at hna
        exact noArrFields_mem hna
      have conj3 : eraseStrings (sanitizeObject (.obj fs))
          = eraseStrings (.obj fs) := by
        rw [sanitizeObject, sanitizeFields_eq_map, eraseStrings, eraseStrings,
          eraseFields_eq_map, eraseFields_eq_map, List.map_map]
        have : fs.map ((fun kv => (kv.1, eraseStrings kv.2))
              ∘ fun kv => (kv.1, entryVal kv.2))
            = fs.map (fun kv => (kv.1, eraseStrings kv.2)) :=
          List.map_congr_left (fun kv hkv => by
            have hlt := sizeOf_mem_obj hkv
            simp only [Function.comp_apply]
            rw [(ih kv.2 (by omega) (hmem kv hkv)).1])
        rw [this]
      exact ⟨by rw [entryVal]; exact conj3,
        fun _ => by rw [itemVal]; exact conj3, fun _ => conj3⟩

/-- `sanitizeObject` on a plain object changes only string values, provided
no array is nested directly inside an array. -/
theorem sanitizeObject_eraseStrings {fs : List (String × Js)}
    (h : noArrArr (Js.obj fs) = true) :
    eraseStrings (sanitizeObject (Js.obj fs)) = eraseStrings (Js.obj fs) :=
  (erase_sanitize_aux (sizeOf (Js.obj fs)) _ (Nat.le_refl _) h).2.2 rfl

/-! ## Observation helpers on `Js` values -/

def jsGet : List (String × Js) → String → Option Js
  | [], _ => none
  | (k, v) :: t, key => if k = key then some v else jsGet t key

/-- `v[k]` on a plain object. -/
def getField (v : Js) (k : String) : Option Js :=
  match v with
  | .obj fs => jsGet fs k
  | _ => none

/-- `v[k]` when it is a string. -/
def strAt (v : Js) (k : String) : Option (List Char) :=
  match getField v k with
  | some (.str s) => some s
  | _ => none

/-- `v[i]` on an array. -/
def arrIdx (v : Js) (i : Nat) : Option Js :=
  match v with
  | .arr l => l.get? i
  | _ => none

/-- The JavaScript runtime tag of a value. -/
def tagName : Js → String
  | .str _ => "str"
  | .num _ => "num"
  | .jbool _ => "bool"
  | .null => "null"
  | .arr _ => "arr"
  | .obj _ => "obj"

/-! ## Claims C1, C2, C9 -/

/-- C1 counterexample: sanitization is NOT idempotent. On the object
`{a: "&"}` one application yields `{a: "&amp;"}` and a second yields
`{a: "&amp;amp;"}` (the `&`-replacement runs after `<`/`>` and re-escapes
its own output), and likewise for the bare string `"&"`. -/
theorem C1_counterexample :
    sanitizeObject (sanitizeObject (Js.obj [("a", Js.str ['&'])]))
      ≠ sanitizeObject (Js.obj [("a", Js.str ['&'])])
    ∧ sanitizeString (sanitizeString ['&']) ≠ sanitizeString ['&'] := by
  have hs1 : sanitizeString ['&'] = "&amp;".toList := by decide
  have hs2 : sanitizeString "&amp;".toList = "&amp;amp;".toList := by decide
  have e1 : sanitizeObject (Js.obj [("a", Js.str ['&'])])
      = Js.obj [("a", Js.str "&amp;".toList)] := by
    simp [sanitizeObject, sanitizeFields, entryVal, hs1]
  have e2 : sanitizeObject (Js.obj [("a", Js.str "&amp;".toList)])
      = Js.obj [("a", Js.str "&amp;amp;".toList)] := by
    simp only [sanitizeObject, sanitizeFields, entryVal, hs2]
  refine ⟨?_, ?_⟩
  · rw [e1, e2]
    intro h
    exact absurd (congrArg (fun v => strAt v "a") h) (by decide)
  · rw [hs1, hs2]
    intro h
    exact absurd h (by decide)

/-- C1 (amended): sanitization is idempotent exactly on inputs that avoid
the six escaped characters: for every object all of whose strings contain
none of `< > & " ' /`, `sanitizeObject (sanitizeObject v) = sanitizeObject v`,
and likewise `sanitizeString` is idempotent on every string without those
characters. -/
theorem C1_sanitize_idem_noSpecials :
    (∀ v : Js, noSpecJs v = true →
      sanitizeObject (sanitizeObject v) = sanitizeObject v)
    ∧ ∀ s : List Char, (∀ c ∈ s, isSpecial c = false) →
      sanitizeString (sanitizeString s) = sanitizeString s :=
  ⟨fun _ hv => sanitizeObject_idem_noSpecials hv,
   fun _ hs => sanitizeString_idem_noSpecials hs⟩

theorem C1_sanitize_idem_noSpecials_witness :
    noSpecJs (Js.obj [("a", Js.str "hi ho".toList)]) = true
    ∧ sanitizeObject (sanitizeObject (Js.obj [("a", Js.str "hi ho".toList)]))
      = sanitizeObject (Js.obj [("a", Js.str "hi ho".toList)])
    ∧ sanitizeString (sanitizeString "hi".toList)
      = sanitizeString "hi".toList := by
  have hns : noSpecJs (Js.obj [("a", Js.str "hi ho".toList)]) = true := by
    simp only [noSpecJs, noSpecFields]
    decide
  exact ⟨hns, C1_sanitize_idem_noSpecials.1 _ hns,
    C1_sanitize_idem_noSpecials.2 _ (by decide)⟩

/-- C2 counterexample: `sanitizeObject` does NOT leave every non-string
field unchanged. In `{a: [[1]]}` the field `a` is a non-string (an array),
and its inner element, the array `[1]`, is fed to `sanitizeObject`
(`typeof [] === 'object'`), which runs it through `Object.entries` and
turns it into the index-keyed object `{"0": 1}`. -/
theorem C2_counterexample :
    ((getField (Js.obj [("a", Js.arr [Js.arr [Js.num 1]])]) "a").map tagName
        = some "arr")
    ∧ (((getField (Js.obj [("a", Js.arr [Js.arr [Js.num 1]])]) "a").bind
          (fun v => arrIdx v 0)).map tagName = some "arr")
    ∧ (((getField
          (sanitizeObject (Js.obj [("a", Js.arr [Js.arr [Js.num 1]])])) "a").bind
          (fun v => arrIdx v 0)).map tagName = some "obj")
    ∧ getField (sanitizeObject (Js.obj [("a", Js.arr [Js.arr [Js.num 1]])])) "a"
      ≠ getField (Js.obj [("a", Js.arr [Js.arr [Js.num 1]])]) "a" := by
  have e : sanitizeObject (Js.obj [("a", Js.arr [Js.arr [Js.num 1]])])
      = Js.obj [("a", Js.arr [Js.obj [("0", Js.num 1)]])] := by
    simp only [sanitizeObject, sanitizeFields, sanitizeEntries, entryVal,
      itemVals, itemVal, enumKeys]
    rfl
  refine ⟨by decide, by decide, ?_, ?_⟩
  · rw [e]; decide
  · rw [e]
    intro h
    exact absurd (congrArg (fun o => (o.bind (fun v => arrIdx v 0)).map tagName) h)
      (by decide)

/-- C2 (amended): for every string, the output of `sanitizeString` contains
no unescaped occurrence of `< > & " ' /` (none of `< > " ' /` appear, and
every `&` begins an emitted entity); and for every object in which no array
is nested directly inside an array, `sanitizeObject` changes nothing except
string values (erasing all strings, input and output coincide, so numbers,
booleans and `null` are untouched, also inside nested objects and arrays). -/
theorem C2_escape_and_nonstrings :
    (∀ s : List Char, wellEscaped (sanitizeString s) = true)
    ∧ ∀ fs : List (String × Js), noArrArr (Js.obj fs) = true →
        eraseStrings (sanitizeObject (Js.obj fs)) = eraseStrings (Js.obj fs) :=
  ⟨sanitizeString_wellEscaped, fun _ h => sanitizeObject_eraseStrings h⟩

theorem C2_escape_and_nonstrings_witness :
    wellEscaped (sanitizeString "a<b&c".toList) = true
    ∧ noArrArr (Js.obj [("n", Js.num 3), ("s", Js.str "x&y".toList)]) = true
    ∧ eraseStrings (sanitizeObject
        (Js.obj [("n", Js.num 3), ("s", Js.str "x&y".toList)]))
      = eraseStrings (Js.obj [("n", Js.num 3), ("s", Js.str "x&y".toList)]) := by
  have hna : noArrArr (Js.obj [("n", Js.num 3), ("s", Js.str "x&y".toList)])
      = true := by
    simp only [noArrArr, noArrFields]
    decide
  exact ⟨C2_escape_and_nonstrings.1 _, hna, C2_escape_and_nonstrings.2 _ hna⟩

/-- C9: `sanitizeString` also trims: a string of only whitespace (or the
empty string) maps to `''`, and the output never starts or ends with a
whitespace character. -/
theorem C9_sanitizeString_trims (s : List Char) :
    ((∀ c ∈ s, isJsWs c = true) → sanitizeString s = [])
    ∧ (∀ c, (sanitizeString s).head? = some c → isJsWs c = false)
    ∧ (∀ c, (sanitizeString s).getLast? = some c → isJsWs c = false) :=
  ⟨sanitizeString_allWs, fun _ h => sanitizeString_head? h,
   fun _ h => sanitizeString_getLast? h⟩

theorem C9_sanitizeString_trims_witness :
    sanitizeString "  ".toList = [] ∧ isJsWs 'x' = false :=
  ⟨(C9_sanitizeString_trims "  ".toList).1 (by decide),
   (C9_sanitizeString_trims " x ".toList).2.1 'x' (by decide)⟩

/-! ## Error taxonomy and boundary (`src/lib/error-handler.ts`) -/

/-- The seven error kinds of the `ErrorType` enum. -/
inductive ErrorType where
  | VALIDATION | AUTHENTICATION | AUTHORIZATION | NOT_FOUND
  | DATABASE | SERVER | EXTERNAL_SERVICE
deriving DecidableEq

/-- The string value of each `ErrorType` enum member. -/
def errName : ErrorType → List Char
  | .VALIDATION => "VALIDATION_ERROR".toList
  | .AUTHENTICATION => "AUTHENTICATION_ERROR".toList
  | .AUTHORIZATION => "AUTHORIZATION_ERROR".toList
  | .NOT_FOUND => "NOT_FOUND_ERROR".toList
  | .DATABASE => "DATABASE_ERROR".toList
  | .SERVER => "SERVER_ERROR".toList
  | .EXTERNAL_SERVICE => "EXTERNAL_SERVICE_ERROR".toList

/-- The `AppError` class: message, type, HTTP status, operational flag and
optional structured details. -/
structure AppError where
  message : List Char
  etype : ErrorType
  statusCode : Nat
  isOperational : Bool
  details : Option Js

/-- The `createError` factory. Constructor defaults: type SERVER,
status 500, operational, no details. -/
def createError.validation (message : List Char) (details : Option Js) :
    AppError := ⟨message, .VALIDATION, 400, true, details⟩

def createError.authentication (message : List Char) : AppError :=
  ⟨message, .AUTHENTICATION, 401, true, none⟩

def createError.authorization (message : List Char) : AppError :=
  ⟨message, .AUTHORIZATION, 403, true, none⟩

def createError.notFound (message : List Char) : AppError :=
  ⟨message, .NOT_FOUND, 404, true, none⟩

def createError.database (message : List Char) (details : Option Js) :
    AppError := ⟨message, .DATABASE, 500, true, details⟩

def createError.server (message : List Char) : AppError :=
  ⟨message, .SERVER, 500, true, none⟩

def createError.externalService (message : List Char) (details : Option Js) :
    AppError := ⟨message, .EXTERNAL_SERVICE, 502, true, details⟩

/-- `process.env.NODE_ENV`; the code only distinguishes `production` and
`development`, any other value behaves like `test`. -/
inductive Env where
  | development | production | test
deriving DecidableEq

/-- JavaScript truthiness of a value. -/
def jsTruthy : Js → Bool
  | .str s => !s.isEmpty
  | .num n => !(n == 0)
  | .jbool b => b
  | .null => false
  | .arr _ => true
  | .obj _ => true

/-- A thrown JavaScript value: an `AppError`, some other `Error` (with its
message), or any non-`Error` value. -/
inductive Thrown where
  | app : AppError → Thrown
  | err : List Char → Thrown
  | other : Js → Thrown

/-- An HTTP response as produced by `NextResponse.json(body, {status})`
(default status 200). -/
structure ApiResp where
  status : Nat
  body : Js

def genericServerMsg : List Char := "Internal server error".toList

/-- The conditional `details` entry:
`...(process.env.NODE_ENV !== 'production' && errorDetails ? { details: errorDetails } : {})`. -/
def detailsField (env : Env) : Option Js → List (String × Js)
  | some v =>
    if env ≠ Env.production ∧ jsTruthy v = true then [("details", v)] else []
  | none => []

/-- The error envelope `{success:false, error:{type, message, details?}}`. -/
def mkErrorBody (env : Env) (etype : ErrorType) (msg : List Char)
    (d : Option Js) : Js :=
  .obj [("success", .jbool false),
    ("error", .obj (("type", Js.str (errName etype))
      :: ("message", Js.str msg) :: detailsField env d))]

/-- `handleApiError` from `src/lib/error-handler.ts`: AppError fields are
used verbatim; other `Error`s keep the 500/SERVER defaults with the raw
message outside production; anything else keeps all defaults. -/
def handleApiError (env : Env) : Thrown → ApiResp
  | .app e => ⟨e.statusCode, mkErrorBody env e.etype e.message e.details⟩
  | .err m =>
    ⟨500, mkErrorBody env .SERVER
      (if env = Env.production then genericServerMsg else m) none⟩
  | .other _ => ⟨500, mkErrorBody env .SERVER genericServerMsg none⟩

/-- `withErrorHandling`: run the handler; on any thrown value answer with
`handleApiError`. -/
def withErrorHandling (env : Env) : Except Thrown ApiResp → ApiResp
  | .ok r => r
  | .error t => handleApiError env t

theorem errBody_success (env : Env) (ty : ErrorType) (msg : List Char)
    (d : Option Js) :
    getField (mkErrorBody env ty msg d) "success" = some (.jbool false) := by
  simp [mkErrorBody, getField, jsGet]

theorem errBody_error_obj (env : Env) (ty : ErrorType) (msg : List Char)
    (d : Option Js) :
    ∃ fs, getField (mkErrorBody env ty msg d) "error" = some (.obj fs) := by
  refine ⟨("type", Js.str (errName ty))
    :: ("message", Js.str msg) :: detailsField env d, ?_⟩
  simp [mkErrorBody, getField, jsGet]

theorem errBody_type (env : Env) (ty : ErrorType) (msg : List Char)
    (d : Option Js) :
    (getField (mkErrorBody env ty msg d) "error").bind
      (fun o => getField o "type") = some (.str (errName ty)) := by
  simp [mkErrorBody, getField, jsGet]

theorem errBody_message (env : Env) (ty : ErrorType) (msg : List Char)
    (d : Option Js) :
    (getField (mkErrorBody env ty msg d) "error").bind
      (fun o => getField o "message") = some (.str msg) := by
  simp [mkErrorBody, getField, jsGet]

theorem errBody_details (env : Env) (ty : ErrorType) (msg : List Char)
    (d : Option Js) :
    (getField (mkErrorBody env ty msg d) "error").bind
      (fun o => getField o "details")
    = match d with
      | some v =>
        if env ≠ Env.production ∧ jsTruthy v = true then some v else none
      | none => none := by
  cases d with
  | none => simp [mkErrorBody, getField, jsGet, detailsField]
  | some v =>
    by_cases h : env ≠ Env.production ∧ jsTruthy v = true
    · simp [mkErrorBody, getField, jsGet, detailsField, h]
    · simp [mkErrorBody, getField, jsGet, detailsField, h]

/-- C3: the top-level error boundary. Every thrown value produces a body
`{success:false, error:{type, message, details?}}` with a status code; an
`AppError` is rendered verbatim (its statusCode, type, message, details);
any other thrown value defaults to SERVER/500, with the raw message of an
`Error` shown only outside production and the generic redacted message
otherwise; `details` appears only outside production and only when present
(and truthy); `withErrorHandling` forwards normal results and routes every
thrown value through `handleApiError`. -/
theorem C3_error_boundary (env : Env) (e : AppError) (m : List Char)
    (v : Js) :
    (∀ t : Thrown,
      getField (handleApiError env t).body "success" = some (.jbool false)
      ∧ ∃ fs, getField (handleApiError env t).body "error" = some (.obj fs))
    ∧ (handleApiError env (.app e)).status = e.statusCode
    ∧ (getField (handleApiError env (.app e)).body "error").bind
        (fun o => getField o "type") = some (.str (errName e.etype))
    ∧ (getField (handleApiError env (.app e)).body "error").bind
        (fun o => getField o "message") = some (.str e.message)
    ∧ (getField (handleApiError env (.app e)).body "error").bind
        (fun o => getField o "details")
      = (match e.details with
         | some d =>
           if env ≠ Env.production ∧ jsTruthy d = true then some d else none
         | none => none)
    ∧ (handleApiError env (.err m)).status = 500
    ∧ (getField (handleApiError env (.err m)).body "error").bind
        (fun o => getField o "type") = some (.str (errName ErrorType.SERVER))
    ∧ (getField (handleApiError env (.err m)).body "error").bind
        (fun o => getField o "message")
      = some (.str (if env = Env.production then genericServerMsg else m))
    ∧ (getField (handleApiError env (.err m)).body "error").bind
        (fun o => getField o "details") = none
    ∧ (handleApiError env (.other v)).status = 500
    ∧ (getField (handleApiError env (.other v)).body "error").bind
        (fun o => getField o "type") = some (.str (errName ErrorType.SERVER))
    ∧ (getField (handleApiError env (.other v)).body "error").bind
        (fun o => getField o "message") = some (.str genericServerMsg)
    ∧ (getField (handleApiError env (.other v)).body "error").bind
        (fun o => getField o "details") = none
    ∧ (∀ r : ApiResp, withErrorHandling env (.ok r) = r)
    ∧ (∀ t : Thrown, withErrorHandling env (.error t) = handleApiError env t) := by
  refine ⟨fun t => ?_, ?_, ?_, ?_, ?_, ?_, ?_, ?_, ?_, ?_, ?_, ?_, ?_,
    fun r => rfl, fun t => rfl⟩
  · cases t with
    | app e => exact ⟨errBody_success .., errBody_error_obj ..⟩
    | err m => exact ⟨errBody_success .., errBody_error_obj ..⟩
    | other v => exact ⟨errBody_success .., errBody_error_obj ..⟩
  · rfl
  · exact errBody_type ..
  · exact errBody_message ..
  · exact errBody_details ..
  · rfl
  · exact errBody_type ..
  · exact errBody_message ..
  · exact errBody_details env .SERVER _ none
  · rfl
  · exact errBody_type ..
  · exact errBody_message ..
  · exact errBody_details env .SERVER _ none

/-! ## Rate-limiting middleware (`middleware.ts`, `src/unnamed/part_000`) -/

def RATE_LIMIT_WINDOW : Nat := 60 * 1000

def MAX_REQUESTS_PER_WINDOW : Nat := 100

/-- One `rateLimitStore` entry: `{count, resetTime}`. -/
structure RLEntry where
  count : Nat
  resetTime : Nat
deriving DecidableEq

/-- The middleware's answer for a request on a rate-limited (`/api/*`)
path: either pass the request through (`NextResponse.next()`) carrying the
`X-RateLimit-*` headers, or reject it with status 429, a `Retry-After`
header and the structured JSON error body. -/
inductive MwResult where
  | next (limit remaining reset : Nat)
  | tooMany (status : Nat) (retryAfter : List Char)
      (limit remaining reset : Nat) (body : Js)

def rateLimitBody : Js :=
  .obj [("success", .jbool false),
    ("error", .obj [
      ("message", .str "Too many requests, please try again later.".toList),
      ("type", .str "RATE_LIMIT_EXCEEDED".toList)])]

/-- The rate-limiting section of `middleware` for one client on an
`/api/*` path at time `now` (milliseconds): initialize the entry if
missing, reset it if its window has expired (`resetTime < now`), increment
the count, then reject iff the count exceeds the cap. -/
def rlStep (now : Nat) (st : Option RLEntry) : RLEntry × MwResult :=
  let e0 : RLEntry := match st with
    | none => ⟨0, now + RATE_LIMIT_WINDOW⟩
    | some e => e
  let e1 : RLEntry := if e0.resetTime < now
    then ⟨0, now + RATE_LIMIT_WINDOW⟩
    else e0
  let e2 : RLEntry := { count := e1.count + 1, resetTime := e1.resetTime }
  if MAX_REQUESTS_PER_WINDOW < e2.count then
    (e2, .tooMany 429 "60".toList MAX_REQUESTS_PER_WINDOW 0 e2.resetTime
      rateLimitBody)
  else
    (e2, .next MAX_REQUESTS_PER_WINDOW
      (MAX_REQUESTS_PER_WINDOW - e2.count) e2.resetTime)

/-- Run a sequence of requests (given by their times) for one client,
collecting the middleware results. -/
def rlRun : Option RLEntry → List Nat → Option RLEntry × List MwResult
  | st, [] => (st, [])
  | st, t :: ts =>
    let (e, r) := rlStep t st
    let (st2, rs) := rlRun (some e) ts
    (st2, r :: rs)

def isNextResult : MwResult → Bool
  | .next .. => true
  | .tooMany .. => false

/-- The result of a request that finds the counter at `k-1` and raises it
to `k`, in a window ending at `R`. -/
def rlOut (k R : Nat) : MwResult :=
  if MAX_REQUESTS_PER_WINDOW < k then
    .tooMany 429 "60".toList MAX_REQUESTS_PER_WINDOW 0 R rateLimitBody
  else
    .next MAX_REQUESTS_PER_WINDOW (MAX_REQUESTS_PER_WINDOW - k) R

theorem rlStep_in_window {now : Nat} {c R : Nat} (h : ¬R < now) :
    rlStep now (some ⟨c, R⟩) = (⟨c + 1, R⟩, rlOut (c + 1) R) := by
  by_cases hm : MAX_REQUESTS_PER_WINDOW < c + 1 <;>
    simp [rlStep, rlOut, h, hm]

/-- The expected sequence of middleware results for `n` requests that find
the counter at `c`, in a window ending at `R`. -/
def rlOuts (c R : Nat) : Nat → List MwResult
  | 0 => []
  | n + 1 => rlOut (c + 1) R :: rlOuts (c + 1) R n

theorem rlRun_in_window (ts : List Nat) (c R : Nat)
    (h : ∀ t ∈ ts, t ≤ R) :
    rlRun (some ⟨c, R⟩) ts
      = (some ⟨c + ts.length, R⟩, rlOuts c R ts.length) := by
  induction ts generalizing c with
  | nil => simp [rlRun, rlOuts]
  | cons t ts ih =>
    have ht : ¬R < t := by
      have := h t (by simp)
      omega
    rw [rlRun]
    simp only [rlStep_in_window ht]
    rw [ih (c + 1) (fun x hx => h x (by simp [hx]))]
    rw [List.length_cons, rlOuts]
    have hadd : c + 1 + ts.length = c + (ts.length + 1) := by omega
    rw [hadd]

theorem rlOuts_get? (n : Nat) : ∀ (c R i : Nat),
    (rlOuts c R n).get? i
      = if i < n then some (rlOut (c + i + 1) R) else none := by
  induction n with
  | zero => intro c R i; simp [rlOuts]
  | succ n ih =>
    intro c R i
    cases i with
    | zero => simp [rlOuts]
    | succ i =>
      rw [rlOuts]
      show (rlOuts (c + 1) R n).get? i = _
      rw [ih (c + 1) R i]
      by_cases hi : i < n
      · rw [if_pos hi, if_pos (by omega)]
        have hadd : c + 1 + i + 1 = c + (i + 1) + 1 := by omega
        rw [hadd]
      · rw [if_neg hi, if_neg (by omega)]

theorem rlOuts_length (c R n : Nat) : (rlOuts c R n).length = n := by
  induction n generalizing c with
  | zero => simp [rlOuts]
  | succ n ih => rw [rlOuts, List.length_cons, ih]

/-- C4: for a client with no rate-limit entry, the first 100 requests on a
rate-limited path within one 60-second window are forwarded; the 101st in
the same window is answered 429 with `Retry-After: 60` and the structured
JSON error body and is not forwarded; once the window's `resetTime` has
passed, the counter is reinitialized and the next request is forwarded. -/
theorem C4_rate_limiter (t0 tNext : Nat) (ts : List Nat)
    (hlen : ts.length = 100)
    (hwin : ∀ t ∈ ts, t ≤ t0 + RATE_LIMIT_WINDOW)
    (hafter : t0 + RATE_LIMIT_WINDOW < tNext) :
    (rlRun none (t0 :: ts)).2.length = 101
    ∧ (∀ i, i < 100 →
        ((rlRun none (t0 :: ts)).2.get? i).map isNextResult = some true)
    ∧ (rlRun none (t0 :: ts)).2.get? 100
      = some (.tooMany 429 "60".toList MAX_REQUESTS_PER_WINDOW 0
          (t0 + RATE_LIMIT_WINDOW) rateLimitBody)
    ∧ (rlStep tNext (rlRun none (t0 :: ts)).1).1
      = ⟨1, tNext + RATE_LIMIT_WINDOW⟩
    ∧ isNextResult (rlStep tNext (rlRun none (t0 :: ts)).1).2 = true := by
  have hR : ¬(t0 + RATE_LIMIT_WINDOW < t0) := by
    simp [RATE_LIMIT_WINDOW]
  have hstep0 : rlStep t0 none
      = (⟨1, t0 + RATE_LIMIT_WINDOW⟩, rlOut 1 (t0 + RATE_LIMIT_WINDOW)) := by
    simp [rlStep, rlOut, hR, MAX_REQUESTS_PER_WINDOW]
  have hrun : rlRun none (t0 :: ts)
      = (some ⟨1 + 100, t0 + RATE_LIMIT_WINDOW⟩,
        rlOut 1 (t0 + RATE_LIMIT_WINDOW)
          :: rlOuts 1 (t0 + RATE_LIMIT_WINDOW) 100) := by
    rw [rlRun]
    simp only [hstep0, rlRun_in_window ts 1 (t0 + RATE_LIMIT_WINDOW)
      (fun t ht => hwin t ht), hlen]
  refine ⟨?_, ?_, ?_, ?_, ?_⟩
  · rw [hrun, List.length_cons, rlOuts_length]
  · intro i hi
    rw [hrun]
    cases i with
    | zero =>
      simp [rlOut, isNextResult, MAX_REQUESTS_PER_WINDOW]
    | succ j =>
      show ((rlOuts 1 (t0 + RATE_LIMIT_WINDOW) 100).get? j).map isNextResult
        = some true
      rw [rlOuts_get?, if_pos (by omega)]
      have hj : ¬(MAX_REQUESTS_PER_WINDOW < 1 + j + 1) := by
        simp only [MAX_REQUESTS_PER_WINDOW]
        omega
      simp [rlOut, isNextResult, hj]
  · rw [hrun]
    show (rlOuts 1 (t0 + RATE_LIMIT_WINDOW) 100).get? 99
      = some (.tooMany 429 "60".toList MAX_REQUESTS_PER_WINDOW 0
          (t0 + RATE_LIMIT_WINDOW) rateLimitBody)
    rw [rlOuts_get?, if_pos (by omega)]
    have h101 : MAX_REQUESTS_PER_WINDOW < 1 + 99 + 1 := by
      simp [MAX_REQUESTS_PER_WINDOW]
    simp [rlOut, h101]
  · rw [hrun]
    have ht : (t0 + RATE_LIMIT_WINDOW) < tNext := hafter
    simp [rlStep, ht, MAX_REQUESTS_PER_WINDOW]
  · rw [hrun]
    have ht : (t0 + RATE_LIMIT_WINDOW) < tNext := hafter
    simp [rlStep, ht, MAX_REQUESTS_PER_WINDOW, isNextResult]

theorem C4_rate_limiter_witness :
    (List.replicate 100 (0 : Nat)).length = 100
    ∧ ((rlRun none (0 :: List.replicate 100 0)).2.get? 0).map isNextResult
      = some true
    ∧ ((rlRun none (0 :: List.replicate 100 0)).2.get? 99).map isNextResult
      = some true
    ∧ (rlRun none (0 :: List.replicate 100 0)).2.get? 100
      = some (.tooMany 429 "60".toList MAX_REQUESTS_PER_WINDOW 0
          (0 + RATE_LIMIT_WINDOW) rateLimitBody)
    ∧ isNextResult (rlStep 70000 (rlRun none (0 :: List.replicate 100 0)).1).2
      = true := by
  have h := C4_rate_limiter 0 70000 (List.replicate 100 0)
    (by simp)
    (fun t ht => by
      rw [List.eq_of_mem_replicate ht]
      exact Nat.zero_le _)
    (by decide)
  exact ⟨by simp, h.2.1 0 (by omega), h.2.1 99 (by omega), h.2.2.1,
    h.2.2.2.2⟩

/-! ## Persistence model and the profiles route handlers
(`src/app/api/profiles/route.ts`, `src/app/api/profiles/[id]/route.ts`)

The MongoDB collections behind the Mongoose models are modelled as plain
lists; `save`/`deleteMany`/`findByIdAndDelete` become pure store updates.
`dbConnect()` only establishes the cached connection and performs no data
operation, so it does not appear in the recorded operation trace. -/

structure Profile where
  id : String
  name : List Char
  avatar : List Char
  color : List Char
deriving DecidableEq

structure Group where
  id : String
  name : List Char
  gtype : List Char
  profiles : List Profile
deriving DecidableEq

structure Txn where
  id : String
  profileId : String
  groupId : String
deriving DecidableEq

structure BudgetDoc where
  id : String
  profileId : String
  groupId : String
deriving DecidableEq

structure Store where
  groups : List Group
  txns : List Txn
  budgets : List BudgetDoc
deriving DecidableEq

/-- The data operations a handler can issue against persistence. -/
inductive DbOp where
  | findAll
  | findById (id : String)
  | save (id : String)
  | findByIdAndDelete (id : String)
  | deleteTxnsByProfile (pid : String)
  | deleteBudgetsByProfile (pid : String)
  | deleteTxnsByGroup (gid : String)
  | deleteBudgetsByGroup (gid : String)
deriving DecidableEq

/-- Model of `mongoose.Types.ObjectId.isValid` (external library): a
24-character hex string, or any 12-character string. -/
def isHexDigit (c : Char) : Bool :=
  (('0' ≤ c) && (c ≤ '9')) || (('a' ≤ c) && (c ≤ 'f'))
    || (('A' ≤ c) && (c ≤ 'F'))

def isValidObjectId (s : String) : Bool :=
  ((s.length == 24) && s.data.all isHexDigit) || s.length == 12

def profileToJs (p : Profile) : Js :=
  .obj [("_id", .str p.id.toList), ("name", .str p.name),
    ("avatar", .str p.avatar), ("color", .str p.color)]

def groupToJs (g : Group) : Js :=
  .obj [("_id", .str g.id.toList), ("name", .str g.name),
    ("type", .str g.gtype),
    ("profiles", .arr (g.profiles.map profileToJs))]

/-- What a route handler produces: a response or a thrown value, the
resulting store, and the trace of data operations it issued. -/
structure HandlerOut where
  result : Except Thrown ApiResp
  store : Store
  ops : List DbOp

/-- `GET` from `src/app/api/profiles/route.ts`: list all groups; an empty
collection is a valid state answered with `[]`, not 404. -/
def getHandler (store : Store) : HandlerOut :=
  if store.groups.isEmpty then ⟨.ok ⟨200, .arr []⟩, store, [.findAll]⟩
  else ⟨.ok ⟨200, .arr (store.groups.map groupToJs)⟩, store, [.findAll]⟩

/-- `!body.name || typeof body.name !== "string" || body.name.trim() === ""`
(the same check guards each profile's `name`): `some s` exactly when the
value is a string with non-blank trim. -/
def bodyName (body : Js) (k : String) : Option (List Char) :=
  match getField body k with
  | some (.str s) => if jsTrim s = [] then none else some s
  | _ => none

def allowedGroupTypes : List (List Char) :=
  ["family".toList, "roommates".toList, "personal".toList,
   "other".toList, "friends".toList]

/-- `!body.type || !allowedGroupTypes.includes(body.type)`: `includes`
compares with `===`, so only the five literal strings pass. -/
def bodyType (body : Js) : Option (List Char) :=
  match getField body "type" with
  | some (.str t) => if t ∈ allowedGroupTypes then some t else none
  | _ => none

/-- `!Array.isArray(body.profiles) || body.profiles.length === 0`. -/
def bodyProfiles (body : Js) : Option (List Js) :=
  match getField body "profiles" with
  | some (.arr (p :: rest)) => some (p :: rest)
  | _ => none

/-- Build a profile subdocument:
`{name: p.name.trim(), avatar: p.avatar || '', color: p.color || '#3B82F6'}`.
The subdocument id is assigned by persistence and never observed by the
claims, so it is modelled as `""`; non-string truthy `avatar`/`color`
values would be cast by the persistence schema (not part of this
repository) and are mapped to the defaults here. -/
def decodeProfile (p : Js) : Profile :=
  { id := ""
  , name := match getField p "name" with
      | some (.str s) => jsTrim s
      | _ => []
  , avatar := match getField p "avatar" with
      | some (.str a) => if a.isEmpty then [] else a
      | _ => []
  , color := match getField p "color" with
      | some (.str c) => if c.isEmpty then "#3B82F6".toList else c
      | _ => "#3B82F6".toList }

/-- `POST` from `src/app/api/profiles/route.ts`: validate name, type and
profiles in source order, then construct and save the group (the saved
group's id comes from persistence and is passed in as `newId`). The loop
over profiles throws the same message on the first invalid profile, so it
is equivalent to the `all` check. -/
def postHandler (store : Store) (newId : String) (body : Js) : HandlerOut :=
  match bodyName body "name" with
  | none => ⟨.error (.app (createError.validation
      "Group name is required".toList none)), store, []⟩
  | some nm =>
    match bodyType body with
    | none => ⟨.error (.app (createError.validation
        "Valid group type is required. Must be one of: family, roommates, personal, other, friends".toList
        none)), store, []⟩
    | some ty =>
      match bodyProfiles body with
      | none => ⟨.error (.app (createError.validation
          "At least one profile is required".toList none)), store, []⟩
      | some ps =>
        if ps.all (fun p => (bodyName p "name").isSome) then
          let g : Group := ⟨newId, jsTrim nm, ty, ps.map decodeProfile⟩
          ⟨.ok ⟨201, groupToJs g⟩,
            { store with groups := store.groups ++ [g] }, [.save newId]⟩
        else
          ⟨.error (.app (createError.validation
            "Each profile must have a valid name".toList none)), store, []⟩

/-- Replace the saved document in its collection (`group.save()` on a
document loaded by `findById`). -/
def saveReplace (groups : List Group) (g2 : Group) : List Group :=
  groups.map (fun h => if h.id == g2.id then g2 else h)

/-- Outcome of `!body.name || !body.name.trim()`: the check passes, fails
as a validation error, or crashes with a `TypeError` (truthy non-string
`name`, since this check has no `typeof` guard). -/
inductive NameCheck where
  | ok (s : List Char)
  | invalid
  | crash

def putNameCheck (body : Js) : NameCheck :=
  match getField body "name" with
  | some (.str s) => if jsTrim s = [] then .invalid else .ok s
  | some v => if jsTruthy v then .crash else .invalid
  | none => .invalid

/-- `PUT` from `src/app/api/profiles/[id]/route.ts`. `dbConnect()` and
`request.json()` run first (no data operation); then the id format check,
`findById`, the body checks, and the wholesale update. The name check's
`TypeError` case is modelled as a thrown non-`AppError`. -/
def putHandler (store : Store) (id : String) (body : Js) : HandlerOut :=
  if !(isValidObjectId id) then
    ⟨.error (.app (createError.validation
      "Invalid group ID format".toList none)), store, []⟩
  else
    match store.groups.find? (fun g => g.id == id) with
    | none => ⟨.error (.app (createError.notFound "Group not found".toList)),
        store, [.findById id]⟩
    | some g =>
      match putNameCheck body with
      | .crash =>
        ⟨.error (.err "body.name.trim is not a function".toList), store,
          [.findById id]⟩
      | .invalid =>
        ⟨.error (.app (createError.validation
          "Group name is required".toList none)), store, [.findById id]⟩
      | .ok s =>
        match bodyProfiles body with
        | none => ⟨.error (.app (createError.validation
            "At least one profile is required".toList none)), store,
            [.findById id]⟩
        | some ps =>
          let g2 : Group :=
            { g with name := jsTrim s, profiles := ps.map decodeProfile }
          ⟨.ok ⟨200, groupToJs g2⟩,
            { store with groups := saveReplace store.groups g2 },
            [.findById id, .save id]⟩

/-- `DELETE` from `src/app/api/profiles/[id]/route.ts`. With a truthy
`profileId` query parameter (absent and `''` are both falsy) it removes one
profile — refusing when at most one remains — and cascades that profile's
transactions and budgets; otherwise it deletes the whole group and cascades
by group id. -/
def pidParam : Option String → Option String
  | some s => if s == "" then none else some s
  | none => none

def deleteHandler (store : Store) (id : String) (q : Option String) :
    HandlerOut :=
  if !(isValidObjectId id) then
    ⟨.error (.app (createError.validation
      "Invalid group ID format".toList none)), store, []⟩
  else
    match pidParam q with
    | some pid =>
      if !(isValidObjectId pid) then
        ⟨.error (.app (createError.validation
          "Invalid profile ID format".toList none)), store, []⟩
      else
        match store.groups.find? (fun g => g.id == id) with
        | none => ⟨.error (.app (createError.notFound
            "Group not found".toList)), store, [.findById id]⟩
        | some g =>
          if g.profiles.length ≤ 1 then
            ⟨.error (.app (createError.validation
              "Cannot delete the last profile in a group. Delete the group instead.".toList
              none)), store, [.findById id]⟩
          else
            let g2 : Group :=
              { g with profiles := g.profiles.filter (fun p => !(p.id == pid)) }
            ⟨.ok ⟨200, groupToJs g2⟩,
              { groups := saveReplace store.groups g2
              , txns := store.txns.filter (fun t => !(t.profileId == pid))
              , budgets :=
                  store.budgets.filter (fun b => !(b.profileId == pid)) },
              [.findById id, .deleteTxnsByProfile pid,
                .deleteBudgetsByProfile pid, .save id]⟩
    | none =>
      match store.groups.find? (fun g => g.id == id) with
      | none => ⟨.error (.app (createError.notFound
          "Group not found".toList)), store, [.findByIdAndDelete id]⟩
      | some _ =>
        ⟨.ok ⟨200, .obj [("success", .jbool true),
            ("message", .str "Group deleted successfully".toList)]⟩,
          { groups := store.groups.filter (fun h => !(h.id == id))
          , txns := store.txns.filter (fun t => !(t.groupId == id))
          , budgets := store.budgets.filter (fun b => !(b.groupId == id)) },
          [.findByIdAndDelete id, .deleteTxnsByGroup id,
            .deleteBudgetsByGroup id]⟩

theorem bodyProfiles_ne_nil {body : Js} {ps : List Js}
    (h : bodyProfiles body = some ps) : ps ≠ [] := by
  unfold bodyProfiles at h
  split at h
  · injection h with h2
    rw [← h2]
    exact List.cons_ne_nil _ _
  · exact absurd h (by simp)

theorem mem_saveReplace {groups : List Group} {g2 h : Group}
    (hm : h ∈ saveReplace groups g2) : h ∈ groups ∨ h = g2 := by
  unfold saveReplace at hm
  obtain ⟨x, hx, hxe⟩ := List.mem_map.mp hm
  by_cases hc : (x.id == g2.id) = true
  · rw [if_pos hc] at hxe
    exact Or.inr hxe.symm
  · rw [if_neg hc] at hxe
    exact Or.inl (hxe ▸ hx)

theorem filter_ne_nil_of_nodup {l : List Profile} {pid : String}
    (hnd : (l.map Profile.id).Nodup) (hlen : 2 ≤ l.length) :
    l.filter (fun p => !(p.id == pid)) ≠ [] := by
  match l, hlen with
  | x :: y :: t, _ =>
    by_cases hx : x.id = pid
    · have hxy : x.id ∉ (y :: t).map Profile.id := by
        rw [List.map_cons] at hnd
        exact (List.nodup_cons.mp hnd).1
      have hy : ¬y.id = pid := by
        intro hy
        exact hxy (by simp [hx, hy])
      refine List.ne_nil_of_mem (a := y) (List.mem_filter.mpr ⟨by simp, ?_⟩)
      simp [hy]
    · refine List.ne_nil_of_mem (a := x)
        (List.mem_filter.mpr ⟨by simp, by simp [hx]⟩)

/-- Every group in the store still has at least one profile. -/
def groupsNonEmpty (s : Store) : Prop := ∀ g ∈ s.groups, g.profiles ≠ []

/-- The persistence-assigned profile subdocument ids within each group are
distinct. -/
def storeIdsNodup (s : Store) : Prop :=
  ∀ g ∈ s.groups, (g.profiles.map Profile.id).Nodup

/-- C5: every Group reachable through the API keeps at least one Profile:
`POST` and `PUT` only ever store groups with a non-empty profiles list
(their validation rejects anything else), `DELETE` preserves the property
(given distinct profile ids, as persistence assigns them), and deleting a
profile from a group holding at most one profile is rejected with the
VALIDATION message telling the caller to delete the group, leaving the
store untouched. -/
theorem C5_group_retains_profile :
    (∀ store newId body, groupsNonEmpty store →
      groupsNonEmpty (postHandler store newId body).store)
    ∧ (∀ store id body, groupsNonEmpty store →
      groupsNonEmpty (putHandler store id body).store)
    ∧ (∀ store id q, groupsNonEmpty store → storeIdsNodup store →
      groupsNonEmpty (deleteHandler store id q).store)
    ∧ (∀ store id pid g,
        store.groups.find? (fun g2 => g2.id == id) = some g →
        g.profiles.length ≤ 1 →
        isValidObjectId id = true → isValidObjectId pid = true →
        (pid == "") = false →
        (deleteHandler store id (some pid)).result
          = .error (.app (createError.validation
              "Cannot delete the last profile in a group. Delete the group instead.".toList
              none))
        ∧ (deleteHandler store id (some pid)).store = store) := by
  refine ⟨?_, ?_, ?_, ?_⟩
  · intro store newId body hne
    unfold postHandler
    split
    · exact hne
    split
    · exact hne
    split
    · exact hne
    next ps hps =>
      split
      · intro g' hg'
        rcases List.mem_append.mp hg' with hg' | hg'
        · exact hne g' hg'
        · have : g' = ⟨newId, _, _, ps.map decodeProfile⟩ :=
            List.mem_singleton.mp hg'
          rw [this]
          simp only [ne_eq, List.map_eq_nil_iff]
          exact bodyProfiles_ne_nil hps
      · exact hne
  · intro store id body hne
    unfold putHandler
    split
    · exact hne
    split
    · exact hne
    next g hg =>
      split
      · exact hne
      · exact hne
      · split
        · exact hne
        next ps hps =>
          intro g' hg'
          rcases mem_saveReplace hg' with hg' | hg'
          · exact hne g' hg'
          · rw [hg']
            simp only [ne_eq, List.map_eq_nil_iff]
            exact bodyProfiles_ne_nil hps
  · intro store id q hne hnd
    unfold deleteHandler
    split
    · exact hne
    split
    · split
      · exact hne
      split
      · exact hne
      next pid g hg =>
        split
        · exact hne
        · intro g' hg'
          rcases mem_saveReplace hg' with hg' | hg'
          · exact hne g' hg'
          · rw [hg']
            refine filter_ne_nil_of_nodup
              (hnd g (List.mem_of_find?_eq_some hg)) ?_
            omega
    · split
      · exact hne
      · intro g' hg'
        exact hne g' (List.mem_filter.mp hg').1
  · intro store id pid g hfind hle hid hpid hpne
    constructor <;>
      simp [deleteHandler, pidParam, hpne, hid, hpid, hfind, hle]

/-- C6: a POST body whose `profiles` field is missing, not an array, or an
empty array always gets a VALIDATION error (status 400 through the error
boundary), with the store untouched and no data operation — in particular
no save — issued. (If `name` or `type` are also invalid, their VALIDATION
error fires first; the outcome class is the same.) -/
theorem C6_post_no_profiles_no_save (store : Store) (newId : String)
    (body : Js) (env : Env) (h : bodyProfiles body = none) :
    (∃ e : AppError, (postHandler store newId body).result = .error (.app e)
      ∧ e.etype = ErrorType.VALIDATION ∧ e.statusCode = 400)
    ∧ (postHandler store newId body).store = store
    ∧ (postHandler store newId body).ops = []
    ∧ (withErrorHandling env (postHandler store newId body).result).status
      = 400 := by
  unfold postHandler
  split
  · exact ⟨⟨_, rfl, rfl, rfl⟩, rfl, rfl,
      by simp [withErrorHandling, handleApiError, createError.validation]⟩
  split
  · exact ⟨⟨_, rfl, rfl, rfl⟩, rfl, rfl,
      by simp [withErrorHandling, handleApiError, createError.validation]⟩
  split
  · exact ⟨⟨_, rfl, rfl, rfl⟩, rfl, rfl,
      by simp [withErrorHandling, handleApiError, createError.validation]⟩
  next ps hps =>
    rw [h] at hps
    cases hps

theorem C6_post_no_profiles_no_save_witness :
    bodyProfiles (Js.obj [("name", Js.str "N".toList),
      ("type", Js.str "family".toList)]) = none
    ∧ (postHandler ⟨[], [], []⟩ "x"
        (Js.obj [("name", Js.str "N".toList),
          ("type", Js.str "family".toList)])).ops = []
    ∧ (withErrorHandling Env.development
        (postHandler ⟨[], [], []⟩ "x"
          (Js.obj [("name", Js.str "N".toList),
            ("type", Js.str "family".toList)])).result).status = 400 := by
  have h : bodyProfiles (Js.obj [("name", Js.str "N".toList),
      ("type", Js.str "family".toList)]) = none := rfl
  have hc := C6_post_no_profiles_no_save ⟨[], [], []⟩ "x" _ Env.development h
  exact ⟨h, hc.2.2.1, hc.2.2.2⟩

/-- C7: a PUT whose id is not a well-formed ObjectId is rejected with
VALIDATION "Invalid group ID format" (400 through the boundary), the store
is untouched, and no data operation is issued before the rejection
(`dbConnect()` establishes the cached connection but performs no data
operation). -/
theorem C7_put_invalid_id (store : Store) (id : String) (body : Js)
    (env : Env) (h : isValidObjectId id = false) :
    (putHandler store id body).result
      = .error (.app (createError.validation
          "Invalid group ID format".toList none))
    ∧ (putHandler store id body).store = store
    ∧ (putHandler store id body).ops = []
    ∧ (withErrorHandling env (putHandler store id body).result).status = 400
    ∧ (getField (withErrorHandling env
          (putHandler store id body).result).body "error").bind
        (fun o => getField o "type")
      = some (.str (errName ErrorType.VALIDATION))
    ∧ (getField (withErrorHandling env
          (putHandler store id body).result).body "error").bind
        (fun o => getField o "message")
      = some (.str "Invalid group ID format".toList) := by
  have hres : putHandler store id body
      = ⟨.error (.app (createError.validation
          "Invalid group ID format".toList none)), store, []⟩ := by
    unfold putHandler
    rw [h]
    rfl
  rw [hres]
  refine ⟨rfl, rfl, rfl, rfl, ?_, ?_⟩
  · exact errBody_type ..
  · exact errBody_message ..

theorem C7_put_invalid_id_witness :
    isValidObjectId "abc" = false
    ∧ (putHandler ⟨[], [], []⟩ "abc" Js.null).ops = []
    ∧ (withErrorHandling Env.development
        (putHandler ⟨[], [], []⟩ "abc" Js.null).result).status = 400
    ∧ (getField (withErrorHandling Env.development
          (putHandler ⟨[], [], []⟩ "abc" Js.null).result).body "error").bind
        (fun o => getField o "message")
      = some (.str "Invalid group ID format".toList) := by
  have h : isValidObjectId "abc" = false := by decide
  have hc := C7_put_invalid_id ⟨[], [], []⟩ "abc" Js.null Env.development h
  exact ⟨h, hc.2.2.1, hc.2.2.2.1, hc.2.2.2.2.2⟩

theorem saveReplace_self {groups : List Group} {g : Group}
    (hnd : (groups.map Group.id).Nodup) (hmem : g ∈ groups) :
    saveReplace groups g = groups := by
  unfold saveReplace
  have hpt : ∀ h ∈ groups, (if h.id == g.id then g else h) = h := by
    intro h hh
    by_cases hc : (h.id == g.id) = true
    · rw [if_pos hc]
      exact List.inj_on_of_nodup_map hnd hmem hh (beq_iff_eq.mp hc).symm
    · rw [if_neg hc]
  rw [List.map_congr_left hpt]
  simp

/-- C10: DELETE with a well-formed `profileId` that matches no profile of
the target group (which has at least two profiles) succeeds with 200 and
the unchanged group — no NOT_FOUND for the missing profile — leaves the
groups collection unchanged (`.pull` removes nothing), and still deletes
every transaction and budget whose `profileId` equals the identifier. -/
theorem C10_delete_unmatched_profile (store : Store) (id pid : String)
    (g : Group)
    (hid : isValidObjectId id = true) (hpid : isValidObjectId pid = true)
    (hpne : (pid == "") = false)
    (hfind : store.groups.find? (fun g2 => g2.id == id) = some g)
    (hlen : 2 ≤ g.profiles.length)
    (hno : ∀ p ∈ g.profiles, p.id ≠ pid)
    (hnd : (store.groups.map Group.id).Nodup) :
    (deleteHandler store id (some pid)).result = .ok ⟨200, groupToJs g⟩
    ∧ (deleteHandler store id (some pid)).store.groups = store.groups
    ∧ (deleteHandler store id (some pid)).store.txns
      = store.txns.filter (fun t => !(t.profileId == pid))
    ∧ (deleteHandler store id (some pid)).store.budgets
      = store.budgets.filter (fun b => !(b.profileId == pid))
    ∧ (deleteHandler store id (some pid)).ops
      = [.findById id, .deleteTxnsByProfile pid, .deleteBudgetsByProfile pid,
         .save id] := by
  have hg2 : g.profiles.filter (fun p => !(p.id == pid)) = g.profiles :=
    List.filter_eq_self.mpr (fun p hp => by simp [hno p hp])
  have hmem := List.mem_of_find?_eq_some hfind
  have hle : ¬(g.profiles.length ≤ 1) := by omega
  have hrepl := saveReplace_self hnd hmem
  refine ⟨?_, ?_, ?_, ?_, ?_⟩ <;>
    simp [deleteHandler, pidParam, hpne, hid, hpid, hfind, hle, hg2, hrepl]

theorem C10_delete_unmatched_profile_witness :
    (deleteHandler
        ⟨[⟨"aaaaaaaaaaaaaaaaaaaaaaaa", "G".toList, "family".toList,
          [⟨"cccccccccccccccccccccccc", "A".toList, [], []⟩,
           ⟨"dddddddddddddddddddddddd", "B".toList, [], []⟩]⟩],
          [⟨"t1", "bbbbbbbbbbbbbbbbbbbbbbbb", "aaaaaaaaaaaaaaaaaaaaaaaa"⟩],
          [⟨"b1", "bbbbbbbbbbbbbbbbbbbbbbbb", "aaaaaaaaaaaaaaaaaaaaaaaa"⟩]⟩
        "aaaaaaaaaaaaaaaaaaaaaaaa"
        (some "bbbbbbbbbbbbbbbbbbbbbbbb")).store.groups
      = [⟨"aaaaaaaaaaaaaaaaaaaaaaaa", "G".toList, "family".toList,
          [⟨"cccccccccccccccccccccccc", "A".toList, [], []⟩,
           ⟨"dddddddddddddddddddddddd", "B".toList, [], []⟩]⟩]
    ∧ (deleteHandler
        ⟨[⟨"aaaaaaaaaaaaaaaaaaaaaaaa", "G".toList, "family".toList,
          [⟨"cccccccccccccccccccccccc", "A".toList, [], []⟩,
           ⟨"dddddddddddddddddddddddd", "B".toList, [], []⟩]⟩],
          [⟨"t1", "bbbbbbbbbbbbbbbbbbbbbbbb", "aaaaaaaaaaaaaaaaaaaaaaaa"⟩],
          [⟨"b1", "bbbbbbbbbbbbbbbbbbbbbbbb", "aaaaaaaaaaaaaaaaaaaaaaaa"⟩]⟩
        "aaaaaaaaaaaaaaaaaaaaaaaa"
        (some "bbbbbbbbbbbbbbbbbbbbbbbb")).store.txns = []
    ∧ (deleteHandler
        ⟨[⟨"aaaaaaaaaaaaaaaaaaaaaaaa", "G".toList, "family".toList,
          [⟨"cccccccccccccccccccccccc", "A".toList, [], []⟩,
           ⟨"dddddddddddddddddddddddd", "B".toList, [], []⟩]⟩],
          [⟨"t1", "bbbbbbbbbbbbbbbbbbbbbbbb", "aaaaaaaaaaaaaaaaaaaaaaaa"⟩],
          [⟨"b1", "bbbbbbbbbbbbbbbbbbbbbbbb", "aaaaaaaaaaaaaaaaaaaaaaaa"⟩]⟩
        "aaaaaaaaaaaaaaaaaaaaaaaa"
        (some "bbbbbbbbbbbbbbbbbbbbbbbb")).store.budgets = [] := by
  have hc := C10_delete_unmatched_profile
    ⟨[⟨"aaaaaaaaaaaaaaaaaaaaaaaa", "G".toList, "family".toList,
      [⟨"cccccccccccccccccccccccc", "A".toList, [], []⟩,
       ⟨"dddddddddddddddddddddddd", "B".toList, [], []⟩]⟩],
      [⟨"t1", "bbbbbbbbbbbbbbbbbbbbbbbb", "aaaaaaaaaaaaaaaaaaaaaaaa"⟩],
      [⟨"b1", "bbbbbbbbbbbbbbbbbbbbbbbb", "aaaaaaaaaaaaaaaaaaaaaaaa"⟩]⟩
    "aaaaaaaaaaaaaaaaaaaaaaaa" "bbbbbbbbbbbbbbbbbbbbbbbb"
    ⟨"aaaaaaaaaaaaaaaaaaaaaaaa", "G".toList, "family".toList,
      [⟨"cccccccccccccccccccccccc", "A".toList, [], []⟩,
       ⟨"dddddddddddddddddddddddd", "B".toList, [], []⟩]⟩
    (by decide) (by decide) (by decide) (by decide) (by decide)
    (by decide) (by decide)
  exact ⟨hc.2.1, by rw [hc.2.2.1]; rfl, by rw [hc.2.2.2.1]; rfl⟩

theorem getField_groupToJs_success (g : Group) :
    getField (groupToJs g) "success" = none := by
  simp [groupToJs, getField, jsGet]

/-- C8 counterexample: a successful `GET /api/profiles` on an empty
collection answers 200 with the bare array `[]` — there is no `success`
field in the body, so the success responses do not follow the claimed
envelope. -/
theorem C8_counterexample :
    (getHandler ⟨[], [], []⟩).result = .ok ⟨200, Js.arr []⟩
    ∧ getField (Js.arr []) "success" = none :=
  ⟨rfl, rfl⟩

/-- C8 (amended): every error response carries `success:false` with a
structured error object, and among the successful responses only the
whole-group DELETE carries a `success` field (`success:true`); GET, POST,
PUT and profile-DELETE success responses return the data directly with no
`success` field. -/
theorem C8_envelope (env : Env) :
    (∀ t : Thrown,
      getField (handleApiError env t).body "success" = some (.jbool false)
      ∧ ∃ fs, getField (handleApiError env t).body "error" = some (.obj fs))
    ∧ (∀ store r, (getHandler store).result = .ok r →
        getField r.body "success" = none)
    ∧ (∀ store newId body r, (postHandler store newId body).result = .ok r →
        getField r.body "success" = none)
    ∧ (∀ store id body r, (putHandler store id body).result = .ok r →
        getField r.body "success" = none)
    ∧ (∀ store id pid r, (pid == "") = false →
        (deleteHandler store id (some pid)).result = .ok r →
        getField r.body "success" = none)
    ∧ (∀ store id r, (deleteHandler store id none).result = .ok r →
        getField r.body "success" = some (.jbool true)) := by
  refine ⟨fun t => ?_, fun store r hr => ?_, fun store newId body r hr => ?_,
    fun store id body r hr => ?_, fun store id pid r hp hr => ?_,
    fun store id r hr => ?_⟩
  · cases t with
    | app e => exact ⟨errBody_success .., errBody_error_obj ..⟩
    | err m => exact ⟨errBody_success .., errBody_error_obj ..⟩
    | other v => exact ⟨errBody_success .., errBody_error_obj ..⟩
  · unfold getHandler at hr
    split at hr <;> injection hr with hr <;> rw [← hr] <;> rfl
  · unfold postHandler at hr
    split at hr
    · cases hr
    split at hr
    · cases hr
    split at hr
    · cases hr
    split at hr
    · injection hr with hr
      rw [← hr]
      exact getField_groupToJs_success _
    · cases hr
  · unfold putHandler at hr
    split at hr
    · cases hr
    split at hr
    · cases hr
    split at hr
    · cases hr
    · cases hr
    · split at hr
      · cases hr
      · injection hr with hr
        rw [← hr]
        exact getField_groupToJs_success _
  · unfold deleteHandler at hr
    rw [show pidParam (some pid) = some pid by simp [pidParam, hp]] at hr
    by_cases h1 : (!(isValidObjectId id)) = true
    · rw [if_pos h1] at hr
      simp at hr
    rw [if_neg h1] at hr
    dsimp only at hr
    by_cases h2 : (!(isValidObjectId pid)) = true
    · rw [if_pos h2] at hr
      simp at hr
    rw [if_neg h2] at hr
    cases hf : store.groups.find? (fun g => g.id == id) with
    | none =>
      rw [hf] at hr
      simp at hr
    | some g =>
      rw [hf] at hr
      dsimp only at hr
      by_cases h3 : g.profiles.length ≤ 1
      · rw [if_pos h3] at hr
        simp at hr
      · rw [if_neg h3] at hr
        injection hr with hr
        rw [← hr]
        exact getField_groupToJs_success _
  · unfold deleteHandler at hr
    rw [show pidParam none = none from rfl] at hr
    by_cases h1 : (!(isValidObjectId id)) = true
    · rw [if_pos h1] at hr
      simp at hr
    rw [if_neg h1] at hr
    dsimp only at hr
    cases hf : store.groups.find? (fun g => g.id == id) with
    | none =>
      rw [hf] at hr
      simp at hr
    | some g =>
      rw [hf] at hr
      dsimp only at hr
      injection hr with hr
      rw [← hr]
      rfl

theorem C8_envelope_witness :
    getField (Js.arr []) "success" = none
    ∧ getField (Js.obj [("success", Js.jbool true),
        ("message", Js.str "Group deleted successfully".toList)]) "success"
      = some (Js.jbool true) := by
  refine ⟨(C8_envelope Env.development).2.1 ⟨[], [], []⟩ ⟨200, Js.arr []⟩ rfl,
    ?_⟩
  exact (C8_envelope Env.development).2.2.2.2.2
    ⟨[⟨"aaaaaaaaaaaaaaaaaaaaaaaa", "G".toList, "family".toList,
      [⟨"cccccccccccccccccccccccc", "A".toList, [], []⟩]⟩], [], []⟩
    "aaaaaaaaaaaaaaaaaaaaaaaa"
    ⟨200, Js.obj [("success", Js.jbool true),
      ("message", Js.str "Group deleted successfully".toList)]⟩ rfl

theorem C5_group_retains_profile_witness :
    groupsNonEmpty (postHandler ⟨[], [], []⟩ "x" Js.null).store
    ∧ groupsNonEmpty (putHandler ⟨[], [], []⟩ "abc" Js.null).store
    ∧ groupsNonEmpty (deleteHandler
        ⟨[⟨"aaaaaaaaaaaaaaaaaaaaaaaa", "G".toList, "family".toList,
          [⟨"cccccccccccccccccccccccc", "A".toList, [], []⟩]⟩], [], []⟩
        "aaaaaaaaaaaaaaaaaaaaaaaa" none).store
    ∧ (deleteHandler
        ⟨[⟨"aaaaaaaaaaaaaaaaaaaaaaaa", "G".toList, "family".toList,
          [⟨"cccccccccccccccccccccccc", "A".toList, [], []⟩]⟩], [], []⟩
        "aaaaaaaaaaaaaaaaaaaaaaaa" (some "bbbbbbbbbbbbbbbbbbbbbbbb")).result
      = .error (.app (createError.validation
          "Cannot delete the last profile in a group. Delete the group instead.".toList
          none)) := by
  have hne0 : groupsNonEmpty ⟨[], [], []⟩ := by
    intro g hg
    simp at hg
  have hne1 : groupsNonEmpty
      ⟨[⟨"aaaaaaaaaaaaaaaaaaaaaaaa", "G".toList, "family".toList,
        [⟨"cccccccccccccccccccccccc", "A".toList, [], []⟩]⟩], [], []⟩ := by
    intro g hg
    simp at hg
    rw [hg]
    simp
  have hnd1 : storeIdsNodup
      ⟨[⟨"aaaaaaaaaaaaaaaaaaaaaaaa", "G".toList, "family".toList,
        [⟨"cccccccccccccccccccccccc", "A".toList, [], []⟩]⟩], [], []⟩ := by
    intro g hg
    simp at hg
    rw [hg]
    simp
  refine ⟨C5_group_retains_profile.1 _ _ _ hne0,
    C5_group_retains_profile.2.1 _ _ _ hne0,
    C5_group_retains_profile.2.2.1 _ _ _ hne1 hnd1,
    (C5_group_retains_profile.2.2.2 _ _ "bbbbbbbbbbbbbbbbbbbbbbbb"
      ⟨"aaaaaaaaaaaaaaaaaaaaaaaa", "G".toList, "family".toList,
        [⟨"cccccccccccccccccccccccc", "A".toList, [], []⟩]⟩
      (by decide) (by decide) (by decide) (by decide) (by decide)).1⟩
